import Mathlib

/-!
Shallow embedding of the Micro livecoding environment's graph parser
(`src/graph-parser.mjs`), audio engine (`src/audio-engine.mjs`) and the
graph builder's gain resolution, together with proofs about the claims
of the natural-language specification.

Strings are modelled as lists of characters (`Str`); JavaScript numbers
are modelled as exact rationals (`ℚ`) — all arithmetic involved in the
verified claims is addition/multiplication/division on small values, for
which ℚ is a faithful model of the intended semantics; `Math.pow` is
modelled exactly on ℝ.
-/

namespace Micro

/-- Strings as character lists (JS strings are indexed char sequences). -/
abbrev Str := List Char

/-- JS whitespace characters relevant here (space, tab, CR, LF). -/
def isWS (c : Char) : Bool :=
  c = ' ' || c = '\t' || c = '\n' || c = '\r'

/-- `String.prototype.trim()`: strip whitespace from both ends. -/
def trim (s : Str) : Str :=
  ((s.dropWhile isWS).reverse.dropWhile isWS).reverse

/-- Split a string on a single-character separator (JS `split(ch)`). -/
def splitChar (sep : Char) (s : Str) : List Str :=
  go s []
where
  go : Str → Str → List Str
    | [], acc => [acc.reverse]
    | c :: rest, acc =>
      if c = sep then acc.reverse :: go rest []
      else go rest (c :: acc)

/-- Split on the two-character separator `->` (JS `split('->')`),
scanning left to right. -/
def splitArrow (s : Str) : List Str :=
  go s []
where
  go : Str → Str → List Str
    | [], acc => [acc.reverse]
    | '-' :: '>' :: rest, acc => acc.reverse :: go rest []
    | c :: rest, acc => go rest (c :: acc)

/-- Does the string contain the substring `->`? -/
def containsArrow : Str → Bool
  | [] => false
  | '-' :: '>' :: _ => true
  | _ :: rest => containsArrow rest

/-- Does the string contain the substring `++`? -/
def containsPlusPlus : Str → Bool
  | [] => false
  | '+' :: '+' :: _ => true
  | _ :: rest => containsPlusPlus rest

def isDigit (c : Char) : Bool := '0' ≤ c && c ≤ '9'

def isIdentStart (c : Char) : Bool :=
  ('a' ≤ c && c ≤ 'z') || ('A' ≤ c && c ≤ 'Z') || c = '_'

/-- `\w` character class: letters, digits and underscore. -/
def isWordChar (c : Char) : Bool := isIdentStart c || isDigit c

/-- Digit list to natural number (decimal). -/
def digitsToNat (ds : Str) : ℕ :=
  ds.foldl (fun n c => 10 * n + (c.toNat - '0'.toNat)) 0

/-- Digit list read as the fractional part of a decimal literal. -/
def fracToRat (ds : Str) : ℚ :=
  (digitsToNat ds : ℚ) / ((10 : ℚ) ^ ds.length)

/-- Decimal digits of a natural number, as characters. -/
def natToStr (n : ℕ) : Str := Nat.toDigits 10 n

end Micro

namespace Micro

/-!
## Pattern note tokens and events

`parseSingleNoteToken` produces JS values: `null` (rest), the string
`"-"` (tie), numbers, strings (including literal `NNNHz` frequencies),
chord arrays and `{chord, vel, prob}` objects.  `NoteTok` mirrors those
JS values one-to-one, so JS `===` comparisons become constructor
equality.
-/

inductive NoteTok where
  | null : NoteTok
  | num (q : ℚ) : NoteTok
  | str (s : Str) : NoteTok
  | chord (items : List NoteTok) : NoteTok
  | chordMod (items : List NoteTok) (vel prob : ℚ) : NoteTok

/-- JS `tok === '-'` (the tie/continuation token). -/
def isTieTok : NoteTok → Bool
  | NoteTok.str ['-'] => true
  | _ => false

/-- JS `tok === null || tok === '_'` (a rest). -/
def isRestTok : NoteTok → Bool
  | NoteTok.null => true
  | NoteTok.str ['_'] => true
  | _ => false

/-- One event produced by `makeEventsFromNotes`: `{ token, beats }`
with `token = null` for a rest. -/
structure Event where
  token : Option NoteTok
  beats : ℚ

/-- Result of `makeEventsFromNotes` / a chained-segment parse:
`{ events, wrapCarryBeats }`. -/
structure Segment where
  events : List Event
  wrapCarryBeats : ℚ

/-- `events[i].beats += d` (in-place JS array update at index `i`). -/
def bumpBeats : List Event → ℕ → ℚ → List Event
  | [], _, _ => []
  | e :: es, 0, d => { e with beats := e.beats + d } :: es
  | e :: es, n + 1, d => e :: bumpBeats es n d

/-- The loop body of `makeEventsFromNotes` (graph-parser.mjs:657-677),
threading the mutable `events`, `leadingCarry` and `lastSoundingIndex`. -/
def makeEventsGo (stepBeats : ℚ) :
    List NoteTok → List Event → ℚ → Option ℕ → Segment
  | [], events, carry, _ => ⟨events, carry⟩
  | tok :: rest, events, carry, lastIdx =>
    if isTieTok tok then
      match lastIdx with
      | some i => makeEventsGo stepBeats rest (bumpBeats events i stepBeats) carry lastIdx
      | none => makeEventsGo stepBeats rest events (carry + stepBeats) none
    else if isRestTok tok then
      makeEventsGo stepBeats rest (events ++ [⟨none, stepBeats⟩]) carry lastIdx
    else
      makeEventsGo stepBeats rest (events ++ [⟨some tok, stepBeats⟩]) carry
        (some events.length)

/-- `makeEventsFromNotes(notes, stepBeats)` from graph-parser.mjs:657-677:
convert notes plus a uniform step duration to an event list and the
leading wrap-carry beats. -/
def makeEventsFromNotes (notes : List NoteTok) (stepBeats : ℚ) : Segment :=
  makeEventsGo stepBeats notes [] 0 none

/-- Number of non-tie tokens in a note list (each of which yields exactly
one event; tie tokens yield none). -/
def nonTieCount (notes : List NoteTok) : ℕ :=
  (notes.filter (fun t => !isTieTok t)).length

/-- Sum of the `beats` fields of an event list. -/
def sumBeats (evs : List Event) : ℚ :=
  (evs.map Event.beats).sum

/-!
## Chained segments (`++` concatenation)

State of the `parseChainedSegments` accumulation loop
(graph-parser.mjs:684-754): the chain's events so far and the chain's own
leading carry.
-/

structure ChainState where
  events : List Event
  leadingCarry : ℚ

/-- Index of the last sounding event (`token != null`), the index the
`while (idx >= 0 && chainEvents[idx].token == null) idx--` loop of
`appendSegment` stops at; `none` when every event is a rest. -/
def lastSoundingIdx : List Event → Option ℕ
  | [] => none
  | e :: es =>
    match lastSoundingIdx es with
    | some i => some (i + 1)
    | none => if e.token.isNone then none else some 0

/-- `appendSegment(seg)` from `parseChainedSegments`
(graph-parser.mjs:690-707): append a segment's events to the chain,
first applying the segment's `wrapCarryBeats` to the last sounding event
accumulated so far (or to the chain's own leading carry). -/
def appendSegment (st : ChainState) (seg : Segment) : ChainState :=
  if st.events.isEmpty then
    ⟨seg.events, st.leadingCarry + seg.wrapCarryBeats⟩
  else if seg.wrapCarryBeats > 0 then
    match lastSoundingIdx st.events with
    | some i => ⟨bumpBeats st.events i seg.wrapCarryBeats ++ seg.events, st.leadingCarry⟩
    | none => ⟨st.events ++ seg.events, st.leadingCarry + seg.wrapCarryBeats⟩
  else ⟨st.events ++ seg.events, st.leadingCarry⟩

end Micro

namespace Micro

lemma bumpBeats_length (evs : List Event) (i : ℕ) (d : ℚ) :
    (bumpBeats evs i d).length = evs.length := by
  induction evs generalizing i with
  | nil => rfl
  | cons e es ih =>
    cases i with
    | zero => rfl
    | succ n => simpa [bumpBeats] using ih n

lemma sumBeats_nil : sumBeats [] = 0 := rfl

lemma sumBeats_cons (e : Event) (es : List Event) :
    sumBeats (e :: es) = e.beats + sumBeats es := by
  simp [sumBeats]

lemma sumBeats_append (a b : List Event) :
    sumBeats (a ++ b) = sumBeats a + sumBeats b := by
  simp [sumBeats]

lemma bumpBeats_sum (evs : List Event) (i : ℕ) (d : ℚ) (h : i < evs.length) :
    sumBeats (bumpBeats evs i d) = sumBeats evs + d := by
  induction evs generalizing i with
  | nil => simp at h
  | cons e es ih =>
    cases i with
    | zero => simp [bumpBeats, sumBeats_cons]; ring
    | succ n =>
      have hn : n < es.length := by simpa using h
      simp [bumpBeats, sumBeats_cons, ih n hn]; ring

/-- Conservation invariant of the `makeEventsFromNotes` loop: every token
contributes exactly one step worth of beats, either to an event or to the
carry. -/
lemma makeEventsGo_conserve (step : ℚ) (ts : List NoteTok) :
    ∀ evs carry lastIdx, (∀ i, lastIdx = some i → i < evs.length) →
      sumBeats (makeEventsGo step ts evs carry lastIdx).events
          + (makeEventsGo step ts evs carry lastIdx).wrapCarryBeats
        = sumBeats evs + carry + ts.length * step := by
  induction ts with
  | nil => intro evs carry lastIdx _; simp [makeEventsGo]
  | cons tok rest ih =>
    intro evs carry lastIdx h
    by_cases ht : isTieTok tok = true
    · cases lastIdx with
      | some i =>
        have hi : i < evs.length := h i rfl
        have hlen : i < (bumpBeats evs i step).length := by
          rw [bumpBeats_length]; exact hi
        have := ih (bumpBeats evs i step) carry (some i)
          (fun j hj => by cases hj; exact hlen)
        simp only [makeEventsGo, ht, if_true]
        rw [this, bumpBeats_sum evs i step hi]
        simp only [List.length_cons]
        push_cast
        ring
      | none =>
        have := ih evs (carry + step) none (fun j hj => by cases hj)
        simp only [makeEventsGo, ht, if_true]
        rw [this]
        simp only [List.length_cons]
        push_cast
        ring
    · by_cases hr : isRestTok tok = true
      · have := ih (evs ++ [⟨none, step⟩]) carry lastIdx
          (fun j hj => by
            have := h j hj
            simp only [List.length_append, List.length_cons, List.length_nil]
            omega)
        simp only [makeEventsGo, ht, hr, if_true, if_false, Bool.false_eq_true]
        rw [this, sumBeats_append]
        simp only [sumBeats_cons, sumBeats_nil, List.length_cons]
        push_cast
        ring
      · have := ih (evs ++ [⟨some tok, step⟩]) carry (some evs.length)
          (fun j hj => by
            cases hj
            simp only [List.length_append, List.length_cons, List.length_nil]
            omega)
        simp only [makeEventsGo, ht, hr, if_false, Bool.false_eq_true]
        rw [this, sumBeats_append]
        simp only [sumBeats_cons, sumBeats_nil, List.length_cons]
        push_cast
        ring

/-- Leading rests pass straight into the event list without touching
`lastSoundingIndex`. -/
lemma makeEventsGo_nulls (step : ℚ) (r : ℕ) :
    ∀ ts evs carry,
      makeEventsGo step (List.replicate r NoteTok.null ++ ts) evs carry none
        = makeEventsGo step ts (evs ++ List.replicate r ⟨none, step⟩) carry none := by
  induction r with
  | zero => intro ts evs carry; simp
  | succ n ih =>
    intro ts evs carry
    rw [List.replicate_succ, List.cons_append]
    simp only [makeEventsGo, isTieTok, isRestTok, Bool.false_eq_true, if_true, if_false]
    have hl : evs ++ List.replicate (n + 1) (⟨none, step⟩ : Event)
        = (evs ++ [(⟨none, step⟩ : Event)]) ++ List.replicate n (⟨none, step⟩ : Event) := by
      rw [List.replicate_succ]
      simp [List.append_assoc]
    rw [hl]
    exact ih ts (evs ++ [⟨none, step⟩]) carry

/-- Ties seen before any sounding event accumulate into the carry. -/
lemma makeEventsGo_leading_ties (step : ℚ) (k : ℕ) :
    ∀ ts evs carry,
      makeEventsGo step (List.replicate k (NoteTok.str ['-']) ++ ts) evs carry none
        = makeEventsGo step ts evs (carry + k * step) none := by
  induction k with
  | zero => intro ts evs carry; simp
  | succ n ih =>
    intro ts evs carry
    rw [List.replicate_succ, List.cons_append]
    simp only [makeEventsGo, isTieTok, if_true]
    rw [ih]
    congr 1
    push_cast
    ring

/-- The carry accumulator is only ever added to. -/
lemma makeEventsGo_carry_add (step : ℚ) (ts : List NoteTok) :
    ∀ evs c1 c2 lastIdx,
      makeEventsGo step ts evs (c1 + c2) lastIdx
        = ⟨(makeEventsGo step ts evs c2 lastIdx).events,
           c1 + (makeEventsGo step ts evs c2 lastIdx).wrapCarryBeats⟩ := by
  induction ts with
  | nil => intro evs c1 c2 lastIdx; simp [makeEventsGo]
  | cons tok rest ih =>
    intro evs c1 c2 lastIdx
    by_cases ht : isTieTok tok = true
    · cases lastIdx with
      | some i => simp only [makeEventsGo, ht, if_true]; exact ih _ c1 c2 _
      | none =>
        simp only [makeEventsGo, ht, if_true]
        rw [add_assoc]
        exact ih _ c1 (c2 + step) _
    · by_cases hr : isRestTok tok = true
      · simp only [makeEventsGo, ht, hr, if_true, if_false, Bool.false_eq_true]
        exact ih _ c1 c2 _
      · simp only [makeEventsGo, ht, hr, if_false, Bool.false_eq_true]
        exact ih _ c1 c2 _

/-- The carry is never negative when the step is nonnegative. -/
lemma makeEventsGo_wrap_nonneg (step : ℚ) (hstep : 0 ≤ step) (ts : List NoteTok) :
    ∀ evs carry lastIdx, 0 ≤ carry →
      0 ≤ (makeEventsGo step ts evs carry lastIdx).wrapCarryBeats := by
  induction ts with
  | nil => intro evs carry lastIdx hc; simpa [makeEventsGo] using hc
  | cons tok rest ih =>
    intro evs carry lastIdx hc
    by_cases ht : isTieTok tok = true
    · cases lastIdx with
      | some i => simp only [makeEventsGo, ht, if_true]; exact ih _ _ _ hc
      | none =>
        simp only [makeEventsGo, ht, if_true]
        exact ih _ _ _ (by linarith)
    · by_cases hr : isRestTok tok = true
      · simp only [makeEventsGo, ht, hr, if_true, if_false, Bool.false_eq_true]
        exact ih _ _ _ hc
      · simp only [makeEventsGo, ht, hr, if_false, Bool.false_eq_true]
        exact ih _ _ _ hc

/-- Each non-tie token emits exactly one event; ties emit none. -/
lemma makeEventsGo_length (step : ℚ) (ts : List NoteTok) :
    ∀ evs carry lastIdx,
      (makeEventsGo step ts evs carry lastIdx).events.length
        = evs.length + nonTieCount ts := by
  induction ts with
  | nil => intro evs carry lastIdx; simp [makeEventsGo, nonTieCount]
  | cons tok rest ih =>
    intro evs carry lastIdx
    by_cases ht : isTieTok tok = true
    · cases lastIdx with
      | some i =>
        simp only [makeEventsGo, ht, if_true]
        rw [ih, bumpBeats_length]
        simp [nonTieCount, ht]
      | none =>
        simp only [makeEventsGo, ht, if_true]
        rw [ih]
        simp [nonTieCount, ht]
    · by_cases hr : isRestTok tok = true
      · simp only [makeEventsGo, ht, hr, if_true, if_false, Bool.false_eq_true]
        rw [ih]
        simp [nonTieCount, ht]
        omega
      · simp only [makeEventsGo, ht, hr, if_false, Bool.false_eq_true]
        rw [ih]
        simp [nonTieCount, ht]
        omega

/-- A single sounding event followed by only ties absorbs each tie. -/
lemma makeEventsGo_ties_single (step : ℚ) (k : ℕ) :
    ∀ (e : Event) carry,
      makeEventsGo step (List.replicate k (NoteTok.str ['-'])) [e] carry (some 0)
        = ⟨[⟨e.token, e.beats + k * step⟩], carry⟩ := by
  induction k with
  | zero => intro e carry; simp [makeEventsGo]
  | succ n ih =>
    intro e carry
    rw [List.replicate_succ]
    simp only [makeEventsGo, isTieTok, if_true, bumpBeats]
    rw [ih]
    congr 2
    push_cast
    ring

end Micro

namespace Micro

lemma lastSoundingIdx_allRest (evs : List Event)
    (h : ∀ x ∈ evs, x.token = none) : lastSoundingIdx evs = none := by
  induction evs with
  | nil => rfl
  | cons e es ih =>
    have he : e.token = none := h e (by simp)
    have hes := ih (fun x hx => h x (by simp [hx]))
    simp [lastSoundingIdx, hes, he]

lemma lastSoundingIdx_decomp (pre post : List Event) (e : Event)
    (he : e.token ≠ none) (hpost : ∀ x ∈ post, x.token = none) :
    lastSoundingIdx (pre ++ e :: post) = some pre.length := by
  induction pre with
  | nil =>
    have hp := lastSoundingIdx_allRest post hpost
    have hne : e.token.isNone = false := by
      cases h : e.token with
      | none => exact absurd h he
      | some t => rfl
    simp [lastSoundingIdx, hp, hne]
  | cons p ps ih =>
    simp [lastSoundingIdx, ih]

lemma bumpBeats_decomp (pre post : List Event) (e : Event) (c : ℚ) :
    bumpBeats (pre ++ e :: post) pre.length c
      = pre ++ { e with beats := e.beats + c } :: post := by
  induction pre with
  | nil => rfl
  | cons p ps ih => simp [bumpBeats, ih]

/-- C4 helper: a cons list is never `isEmpty`. -/
lemma isEmpty_append_cons (pre post : List Event) (e : Event) :
    (pre ++ e :: post).isEmpty = false := by
  cases pre <;> rfl

/-- C3: when two `++`-chained segments meet, the second segment's
leading-tie carry (`wrapCarryBeats`) is added onto the last sounding
event accumulated so far (walking backward past trailing rests), the
second segment emits no events for its leading ties, and when the chain
so far has no sounding event the carry accumulates into the chain's own
leading carry instead. -/
theorem claim_C3_tie_carry_across_segments
    (pre post : List Event) (e : Event) (he : e.token ≠ none)
    (hpost : ∀ x ∈ post, x.token = none) (carry0 : ℚ)
    (k : ℕ) (hk : 1 ≤ k) (bs : List NoteTok) (stepB : ℚ) (hstep : 0 < stepB)
    (evs2 : List Event) (hevs2 : ∀ x ∈ evs2, x.token = none) (hne2 : evs2 ≠ []) :
    (makeEventsFromNotes (List.replicate k (NoteTok.str ['-']) ++ bs) stepB).events
        = (makeEventsFromNotes bs stepB).events
    ∧ (makeEventsFromNotes (List.replicate k (NoteTok.str ['-']) ++ bs) stepB).wrapCarryBeats
        = k * stepB + (makeEventsFromNotes bs stepB).wrapCarryBeats
    ∧ appendSegment ⟨pre ++ e :: post, carry0⟩
        (makeEventsFromNotes (List.replicate k (NoteTok.str ['-']) ++ bs) stepB)
      = ⟨(pre ++ { e with beats := e.beats
            + (makeEventsFromNotes (List.replicate k (NoteTok.str ['-']) ++ bs) stepB).wrapCarryBeats }
            :: post)
          ++ (makeEventsFromNotes (List.replicate k (NoteTok.str ['-']) ++ bs) stepB).events,
         carry0⟩
    ∧ appendSegment ⟨evs2, carry0⟩
        (makeEventsFromNotes (List.replicate k (NoteTok.str ['-']) ++ bs) stepB)
      = ⟨evs2 ++ (makeEventsFromNotes (List.replicate k (NoteTok.str ['-']) ++ bs) stepB).events,
         carry0 + (makeEventsFromNotes
            (List.replicate k (NoteTok.str ['-']) ++ bs) stepB).wrapCarryBeats⟩ := by
  have hB : makeEventsFromNotes (List.replicate k (NoteTok.str ['-']) ++ bs) stepB
      = ⟨(makeEventsFromNotes bs stepB).events,
         k * stepB + (makeEventsFromNotes bs stepB).wrapCarryBeats⟩ := by
    rw [makeEventsFromNotes, makeEventsGo_leading_ties]
    have : (0 : ℚ) + k * stepB = k * stepB + 0 := by ring
    rw [this, makeEventsGo_carry_add]
    rfl
  have hwrap0 : 0 ≤ (makeEventsFromNotes bs stepB).wrapCarryBeats :=
    makeEventsGo_wrap_nonneg stepB (le_of_lt hstep) bs [] 0 none le_rfl
  have hpos : 0 < (makeEventsFromNotes
      (List.replicate k (NoteTok.str ['-']) ++ bs) stepB).wrapCarryBeats := by
    rw [hB]
    have hk1 : (1 : ℚ) ≤ (k : ℚ) := by exact_mod_cast hk
    show 0 < (k : ℚ) * stepB + (makeEventsFromNotes bs stepB).wrapCarryBeats
    nlinarith
  refine ⟨by rw [hB], by rw [hB], ?_, ?_⟩
  · rw [appendSegment]
    simp only [isEmpty_append_cons, Bool.false_eq_true, if_false, hpos, if_true,
      lastSoundingIdx_decomp pre post e he hpost, bumpBeats_decomp]
  · rw [appendSegment]
    have hne : evs2.isEmpty = false := by
      cases evs2 with
      | nil => exact absurd rfl hne2
      | cons a l => rfl
    simp only [hne, Bool.false_eq_true, if_false, hpos, if_true,
      lastSoundingIdx_allRest evs2 hevs2]

/-- C3 witness at a concrete chain: `[60] ++ [- 62]` with step 1/2. -/
theorem claim_C3_tie_carry_across_segments_witness :
    ((⟨some (NoteTok.num 60), 1⟩ : Event).token ≠ none)
    ∧ ((0 : ℚ) < 1/2)
    ∧ appendSegment ⟨[] ++ (⟨some (NoteTok.num 60), 1⟩ : Event) :: [], 0⟩
        (makeEventsFromNotes (List.replicate 1 (NoteTok.str ['-']) ++ [NoteTok.num 62]) (1/2))
      = ⟨([] ++ { (⟨some (NoteTok.num 60), 1⟩ : Event) with
            beats := (⟨some (NoteTok.num 60), 1⟩ : Event).beats
              + (makeEventsFromNotes
                  (List.replicate 1 (NoteTok.str ['-']) ++ [NoteTok.num 62]) (1/2)).wrapCarryBeats }
            :: [])
          ++ (makeEventsFromNotes
              (List.replicate 1 (NoteTok.str ['-']) ++ [NoteTok.num 62]) (1/2)).events,
         0⟩ := by
  refine ⟨by simp, by norm_num, ?_⟩
  exact (claim_C3_tie_carry_across_segments [] [] ⟨some (NoteTok.num 60), 1⟩ (by simp)
    (by simp) 0 1 le_rfl [NoteTok.num 62] (1/2) (by norm_num)
    [⟨none, 1⟩] (by simp) (by simp)).2.2.1

end Micro

namespace Micro

/-- C4: a single sounding note followed by N tie tokens yields one event
of `(N+1) * stepBeats` beats and a zero wrap-carry. -/
theorem claim_C4_single_note_with_ties (t : NoteTok)
    (ht : isTieTok t = false) (hr : isRestTok t = false)
    (N : ℕ) (stepBeats : ℚ) :
    makeEventsFromNotes (t :: List.replicate N (NoteTok.str ['-'])) stepBeats
      = ⟨[⟨some t, ((N : ℚ) + 1) * stepBeats⟩], 0⟩ := by
  rw [makeEventsFromNotes]
  simp only [makeEventsGo, ht, hr, Bool.false_eq_true, if_false, List.nil_append,
    List.length_nil]
  rw [makeEventsGo_ties_single]
  congr 2
  push_cast
  ring

/-- C4 witness: `[60 - -]` at step 1/4 gives one event of 3/4 beats. -/
theorem claim_C4_single_note_with_ties_witness :
    isTieTok (NoteTok.num 60) = false
    ∧ isRestTok (NoteTok.num 60) = false
    ∧ makeEventsFromNotes (NoteTok.num 60 :: List.replicate 2 (NoteTok.str ['-'])) (1/4)
        = ⟨[⟨some (NoteTok.num 60), ((2 : ℚ) + 1) * (1/4)⟩], 0⟩ :=
  ⟨rfl, rfl, by
    have h := claim_C4_single_note_with_ties (NoteTok.num 60) rfl rfl 2 (1/4)
    simpa using h⟩

/-- C9: `makeEventsFromNotes` conserves total duration — the beats of all
produced events plus the returned wrap-carry equal
`notes.length * stepBeats`; in particular ties whose nearest preceding
tokens are only rests accumulate into the wrap-carry rather than being
dropped. -/
theorem claim_C9_duration_conservation (notes : List NoteTok) (stepBeats : ℚ)
    (hstep : 0 < stepBeats) (r k : ℕ) :
    sumBeats (makeEventsFromNotes notes stepBeats).events
        + (makeEventsFromNotes notes stepBeats).wrapCarryBeats
      = (notes.length : ℚ) * stepBeats
    ∧ (makeEventsFromNotes
        (List.replicate r NoteTok.null ++ List.replicate k (NoteTok.str ['-']))
        stepBeats).wrapCarryBeats = (k : ℚ) * stepBeats := by
  constructor
  · have h := makeEventsGo_conserve stepBeats notes [] 0 none (fun i hi => by cases hi)
    rw [makeEventsFromNotes]
    rw [h, sumBeats_nil]
    ring
  · rw [makeEventsFromNotes, makeEventsGo_nulls]
    have h2 := makeEventsGo_leading_ties stepBeats k []
      ([] ++ List.replicate r (⟨none, stepBeats⟩ : Event)) 0
    rw [List.append_nil] at h2
    rw [h2, makeEventsGo]
    simp

/-- C9 witness: `[_ - 60]` at step 1/2. -/
theorem claim_C9_duration_conservation_witness :
    ((0 : ℚ) < 1/2)
    ∧ sumBeats (makeEventsFromNotes [NoteTok.null, NoteTok.str ['-'], NoteTok.num 60]
          (1/2)).events
        + (makeEventsFromNotes [NoteTok.null, NoteTok.str ['-'], NoteTok.num 60]
          (1/2)).wrapCarryBeats
      = (([NoteTok.null, NoteTok.str ['-'], NoteTok.num 60].length : ℚ)) * (1/2)
    ∧ (makeEventsFromNotes
        (List.replicate 1 NoteTok.null ++ List.replicate 2 (NoteTok.str ['-']))
        (1/2)).wrapCarryBeats = ((2 : ℕ) : ℚ) * (1/2) := by
  have h := claim_C9_duration_conservation
    [NoteTok.null, NoteTok.str ['-'], NoteTok.num 60] (1/2) (by norm_num) 1 2
  exact ⟨by norm_num, h.1, h.2⟩

end Micro

namespace Micro

/-!
## Preprocessor (graph-parser.mjs:57-114)
-/

/-- Parser error messages, one constructor per `this.errors.push` site in
graph-parser.mjs, carrying the data interpolated into the message. -/
inductive ErrMsg where
  | unmatchedClosingBrace (line : Str)
  | unclosedParameterBlock
  | invalidNodeName (name : Str)
  | emptyRouteDefinition (name : Str)
  | invalidRoutingLine (line : Str)
  | connectFromParam (part : Str)
  | failedParameterBlock (block : Str)
  | invalidParameterSyntax (part : Str)
  | invalidPatternDefinition (name : Str) (rhs : Str)
  | unknownPatternVariable (name : Str)
  | invalidPatternSyntax (line : Str)
  | cannotIndexUnknownRoute (name : Str) (index : ℕ)
  | routeIndexOutOfRange (name : Str) (index : ℕ) (length : ℕ)
deriving DecidableEq

/-- Remove the inline comment: everything from the first `#` on. -/
def stripComment (s : Str) : Str := s.takeWhile (fun c => c ≠ '#')

/-- Comment-strip then trim, as applied to each raw physical line. -/
def cleanLine (s : Str) : Str := trim (stripComment s)

/-- `code.split('\n').map(strip-comment ∘ trim).filter(nonempty)`. -/
def rawLines (code : Str) : List Str :=
  ((splitChar '\n' code).map cleanLine).filter (fun l => l ≠ [])

def countOpenBraces (s : Str) : ℕ := (s.filter (fun c => c = '\x7b')).length

def countCloseBraces (s : Str) : ℕ := (s.filter (fun c => c = '\x7d')).length

/-- `currentLine += ' ' + line` when continuing, else start fresh. -/
def joinLine (cur line : Str) : Str :=
  if cur ≠ [] then cur ++ ' ' :: line else line

/-- State of the preprocessing loop: emitted statements, the buffered
multi-line statement, the running brace depth, collected errors. -/
structure PreState where
  processed : List Str
  currentLine : Str
  braceDepth : ℤ
  errors : List ErrMsg
deriving DecidableEq

/-- One iteration of the `for (const line of rawLines)` loop of
`preprocessLines` (graph-parser.mjs:72-103). -/
def preStep (st : PreState) (line : Str) : PreState :=
  if st.braceDepth + (countOpenBraces line : ℤ) - (countCloseBraces line : ℤ) = 0 then
    ⟨st.processed ++ [joinLine st.currentLine line], [], 0, st.errors⟩
  else if st.braceDepth + (countOpenBraces line : ℤ) - (countCloseBraces line : ℤ) < 0 then
    ⟨st.processed ++ [joinLine st.currentLine line], [], 0,
      st.errors ++ [ErrMsg.unmatchedClosingBrace line]⟩
  else
    ⟨st.processed, joinLine st.currentLine line,
      st.braceDepth + (countOpenBraces line : ℤ) - (countCloseBraces line : ℤ),
      st.errors⟩

/-- `preprocessLines(code)` (graph-parser.mjs:57-114): returns the list of
logically-complete statements plus the errors accumulated so far. -/
def preprocessLines (errors0 : List ErrMsg) (code : Str) : List Str × List ErrMsg :=
  let fin := (rawLines code).foldl preStep ⟨[], [], 0, errors0⟩
  if fin.currentLine ≠ [] then
    (fin.processed ++ [fin.currentLine],
     if fin.braceDepth > 0 then fin.errors ++ [ErrMsg.unclosedParameterBlock]
     else fin.errors)
  else (fin.processed, fin.errors)

lemma stripComment_no_hash (a : Str) (ha : '#' ∉ a) : stripComment a = a := by
  induction a with
  | nil => rfl
  | cons c cs ih =>
    have hc : c ≠ '#' := fun h => ha (by simp [h])
    have hcs : '#' ∉ cs := fun h => ha (by simp [h])
    have := ih hcs
    simp only [stripComment] at this ⊢
    simp [List.takeWhile_cons, hc, this]
    intro x hx hxeq
    exact hcs (hxeq ▸ hx)

lemma stripComment_hash (a b : Str) (ha : '#' ∉ a) :
    stripComment (a ++ '#' :: b) = a := by
  induction a with
  | nil => simp [stripComment]
  | cons c cs ih =>
    have hc : c ≠ '#' := fun h => ha (by simp [h])
    have hcs : '#' ∉ cs := fun h => ha (by simp [h])
    simp [stripComment, hc] at ih ⊢
    exact ih hcs

end Micro

namespace Micro

/-- C7: the preprocessor strips `#` comments before counting braces, never
fails (it always returns a statement list), recovers from a negative
brace depth by recording an unmatched-closing-brace error, emitting the
buffered statement and resetting the depth to 0, and on end of input with
positive depth records an unclosed-parameter-block error while still
emitting the partial statement. -/
theorem claim_C7_preprocessor_error_recovery
    (a b : Str) (ha : '#' ∉ a)
    (st2 : PreState) (line2 : Str)
    (st : PreState) (line : Str)
    (hneg : st.braceDepth + (countOpenBraces line : ℤ)
        - (countCloseBraces line : ℤ) < 0)
    (code : Str) (e0 : List ErrMsg)
    (hcur : ((rawLines code).foldl preStep ⟨[], [], 0, e0⟩).currentLine ≠ [])
    (hdep : 0 < ((rawLines code).foldl preStep ⟨[], [], 0, e0⟩).braceDepth) :
    cleanLine (a ++ '#' :: b) = cleanLine a
    ∧ (0 ≤ st2.braceDepth → 0 ≤ (preStep st2 line2).braceDepth)
    ∧ preStep st line
        = ⟨st.processed ++ [joinLine st.currentLine line], [], 0,
           st.errors ++ [ErrMsg.unmatchedClosingBrace line]⟩
    ∧ preprocessLines e0 code
        = (((rawLines code).foldl preStep ⟨[], [], 0, e0⟩).processed
            ++ [((rawLines code).foldl preStep ⟨[], [], 0, e0⟩).currentLine],
           ((rawLines code).foldl preStep ⟨[], [], 0, e0⟩).errors
            ++ [ErrMsg.unclosedParameterBlock]) := by
  refine ⟨?_, ?_, ?_, ?_⟩
  · unfold cleanLine
    rw [stripComment_hash a b ha, stripComment_no_hash a ha]
  · intro h2
    unfold preStep
    split
    · simp
    · split
      · simp
      · simp
        omega
  · unfold preStep
    rw [if_neg (by omega), if_pos hneg]
  · unfold preprocessLines
    simp only [hcur, if_true, ne_eq, not_false_iff]
    rw [if_pos hdep]

/-- C7 witness: a stray closing brace in `a }` recovers, and
`f = g{` at end of input yields the partial statement plus an
unclosed-parameter-block error. -/
theorem claim_C7_preprocessor_error_recovery_witness :
    ('#' ∉ "x ".toList)
    ∧ (((rawLines "n = f\x7b".toList).foldl preStep
          ⟨[], [], 0, []⟩).currentLine ≠ [])
    ∧ cleanLine ("x ".toList ++ '#' :: "\x7d ignored".toList) = cleanLine "x ".toList
    ∧ preStep ⟨[], [], 0, []⟩ "a \x7d".toList
        = ⟨[] ++ [joinLine [] "a \x7d".toList], [], 0,
           [] ++ [ErrMsg.unmatchedClosingBrace "a \x7d".toList]⟩
    ∧ preprocessLines [] "n = f\x7b".toList
        = (((rawLines "n = f\x7b".toList).foldl preStep ⟨[], [], 0, []⟩).processed
            ++ [((rawLines "n = f\x7b".toList).foldl preStep ⟨[], [], 0, []⟩).currentLine],
           ((rawLines "n = f\x7b".toList).foldl preStep ⟨[], [], 0, []⟩).errors
            ++ [ErrMsg.unclosedParameterBlock]) := by
  have h := claim_C7_preprocessor_error_recovery "x ".toList "\x7d ignored".toList
    (by decide) ⟨[], [], 0, []⟩ [] ⟨[], [], 0, []⟩ "a \x7d".toList (by decide)
    "n = f\x7b".toList [] (by decide) (by decide)
  exact ⟨by decide, by decide, h.1, h.2.2.1, h.2.2.2⟩

end Micro

namespace Micro

/-!
## Association-list model of JS `Map` (insertion-ordered, `set` replaces
in place)
-/

def mapHasKey {α : Type} (m : List (Str × α)) (k : Str) : Bool :=
  m.any (fun p => decide (p.1 = k))

def mapGet {α : Type} (m : List (Str × α)) (k : Str) : Option α :=
  (m.find? (fun p => decide (p.1 = k))).map Prod.snd

def mapSet {α : Type} (m : List (Str × α)) (k : Str) (v : α) : List (Str × α) :=
  if mapHasKey m k then m.map (fun p => if p.1 = k then (k, v) else p)
  else m ++ [(k, v)]

/-!
## Audio engine (src/audio-engine.mjs)
-/

/-- A parsed pattern record as stored in the parser's `patterns` map
(graph-parser.mjs:761-777). -/
structure PatternDef where
  name : Str
  targetName : Str
  resolvedName : Str
  notes : List NoteTok
  duration : ℚ
  events : Option (List Event)
  wrapCarryBeats : ℚ

/-- A pattern as loaded by the engine (audio-engine.mjs:97-105). -/
structure EnginePattern where
  notes : List NoteTok
  duration : ℚ
  targetName : Str
  resolvedName : Str
  stepTicks : ℤ
  loopTicks : ℤ
  nextTick : ℤ

/-- The engine transport state touched by `loadPatterns` and `setBPM`. -/
structure EngineState where
  patterns : List (Str × EnginePattern)
  isPlaying : Bool
  currentTick : ℤ
  bpm : ℚ
  stepDuration : ℚ
  tickSec : ℚ
  ppq : ℕ

/-- JS `Math.round` (half away from zero upward): `⌊x + 1/2⌋`. -/
def jsRound (q : ℚ) : ℤ := ⌊q + 1/2⌋

/-- Build one engine pattern from a parsed pattern
(audio-engine.mjs:93-110): `stepTicks = max(1, round((duration||1)*ppq))`,
`loopTicks = stepTicks * (notes.length||1)`, and — when already playing —
`nextTick = ceil(max(0,currentTick)/stepTicks)*stepTicks`, else 0. -/
def loadOnePattern (st : EngineState) (pd : PatternDef) : EnginePattern :=
  { notes := pd.notes
    duration := pd.duration
    targetName := pd.name
    resolvedName := pd.resolvedName
    stepTicks := max 1 (jsRound ((if pd.duration = 0 then 1 else pd.duration) * st.ppq))
    loopTicks := max 1 (jsRound ((if pd.duration = 0 then 1 else pd.duration) * st.ppq))
      * (if pd.notes.length = 0 then 1 else (pd.notes.length : ℤ))
    nextTick :=
      if st.isPlaying then
        ⌈((max 0 st.currentTick : ℤ) : ℚ)
            / ((max 1 (jsRound ((if pd.duration = 0 then 1 else pd.duration) * st.ppq)) : ℤ) : ℚ)⌉
          * max 1 (jsRound ((if pd.duration = 0 then 1 else pd.duration) * st.ppq))
      else 0 }

/-- `loadPatterns(patterns)` (audio-engine.mjs:88-116): clear the pattern
map and re-key every parsed pattern by its unique name. -/
def loadPatterns (st : EngineState) (pats : List PatternDef) : EngineState :=
  { st with patterns :=
      pats.foldl (fun m pd => mapSet m pd.name (loadOnePattern st pd)) [] }

/-- `setBPM(bpm)` (audio-engine.mjs:304-309). -/
def setBPM (st : EngineState) (bpm : ℚ) : EngineState :=
  { st with
      bpm := max 60 (min 200 bpm)
      stepDuration := 60 / max 60 (min 200 bpm)
      tickSec := 60 / max 60 (min 200 bpm) / st.ppq }

lemma mem_mapSet {α : Type} (m : List (Str × α)) (k : Str) (v : α)
    (kv : Str × α) (h : kv ∈ mapSet m k v) : kv.2 = v ∨ kv ∈ m := by
  unfold mapSet at h
  split at h
  · rcases List.mem_map.mp h with ⟨orig, horig, heq⟩
    by_cases hk : orig.1 = k
    · left; rw [if_pos hk] at heq; rw [← heq]
    · right; rw [if_neg hk] at heq; rw [← heq]; exact horig
  · rcases List.mem_append.mp h with h1 | h1
    · right; exact h1
    · left; simp at h1; rw [h1]

lemma mem_loadPatterns_fold (st : EngineState) (pats : List PatternDef) :
    ∀ acc kv, kv ∈ pats.foldl (fun m pd => mapSet m pd.name (loadOnePattern st pd)) acc →
      kv ∈ acc ∨ ∃ pd, kv.2 = loadOnePattern st pd := by
  induction pats with
  | nil => intro acc kv h; exact Or.inl h
  | cons pd ps ih =>
    intro acc kv h
    rcases ih (mapSet acc pd.name (loadOnePattern st pd)) kv h with h1 | h1
    · rcases mem_mapSet acc pd.name (loadOnePattern st pd) kv h1 with h2 | h2
      · exact Or.inr ⟨pd, h2⟩
      · exact Or.inl h2
    · exact Or.inr h1

/-- C5: replacing the pattern set while playing with `currentTick ≥ 0`
sets every loaded pattern's next-due tick to
`ceil(currentTick / stepTicks) * stepTicks`, which is never less than
`currentTick`. -/
theorem claim_C5_hot_reload_realignment (st : EngineState) (pats : List PatternDef)
    (hplay : st.isPlaying = true) (hct : 0 ≤ st.currentTick)
    (key : Str) (p : EnginePattern)
    (hp : mapGet (loadPatterns st pats).patterns key = some p) :
    p.nextTick = ⌈(st.currentTick : ℚ) / (p.stepTicks : ℚ)⌉ * p.stepTicks
    ∧ st.currentTick ≤ p.nextTick := by
  have hmem : (key, p).2 = p := rfl
  have hfind := List.mem_of_find?_eq_some (Option.map_eq_some.mp hp).choose_spec.1
  have hkv : ∃ pd, p = loadOnePattern st pd := by
    rcases Option.map_eq_some.mp hp with ⟨kv, hkv1, hkv2⟩
    have := List.mem_of_find?_eq_some hkv1
    rcases mem_loadPatterns_fold st pats [] kv (by
      simpa [loadPatterns] using this) with h1 | h1
    · simp at h1
    · rcases h1 with ⟨pd, hpd⟩
      exact ⟨pd, by rw [← hkv2, hpd]⟩
  rcases hkv with ⟨pd, hpd⟩
  subst hpd
  set s : ℤ := max 1 (jsRound ((if pd.duration = 0 then 1 else pd.duration) * st.ppq)) with hs
  have hs1 : (1 : ℤ) ≤ s := le_max_left _ _
  have hmax : max 0 st.currentTick = st.currentTick := max_eq_right hct
  have hnext : (loadOnePattern st pd).nextTick
      = ⌈(st.currentTick : ℚ) / (s : ℚ)⌉ * s := by
    simp only [loadOnePattern, hplay, if_true, ← hs, hmax]
  have hstep : (loadOnePattern st pd).stepTicks = s := by
    simp only [loadOnePattern, ← hs]
  constructor
  · rw [hnext, hstep]
  · rw [hnext]
    have hsq : (0 : ℚ) < (s : ℚ) := by exact_mod_cast lt_of_lt_of_le one_pos hs1
    have h1 : ((st.currentTick : ℚ) / (s : ℚ)) ≤ (⌈(st.currentTick : ℚ) / (s : ℚ)⌉ : ℚ) :=
      Int.le_ceil _
    have h2 : (st.currentTick : ℚ) ≤ (⌈(st.currentTick : ℚ) / (s : ℚ)⌉ : ℚ) * (s : ℚ) := by
      rw [div_le_iff hsq] at h1
      exact h1
    exact_mod_cast h2

/-- C5 witness: reload a single pattern of step 1/2 beat (48 ticks at
ppq 96) at tick 100: next due tick becomes 144 ≥ 100. -/
theorem claim_C5_hot_reload_realignment_witness :
    ((⟨[], true, 100, 120, 1/2, 1/192, 96⟩ : EngineState).isPlaying = true)
    ∧ (0 ≤ (⟨[], true, 100, 120, 1/2, 1/192, 96⟩ : EngineState).currentTick)
    ∧ ((loadOnePattern ⟨[], true, 100, 120, 1/2, 1/192, 96⟩
          ⟨"lead-0".toList, "lead".toList, "sine-0".toList, [], 1/2, none, 0⟩).nextTick
        = ⌈((100 : ℤ) : ℚ)
            / ((loadOnePattern ⟨[], true, 100, 120, 1/2, 1/192, 96⟩
                ⟨"lead-0".toList, "lead".toList, "sine-0".toList, [], 1/2, none, 0⟩).stepTicks : ℚ)⌉
          * (loadOnePattern ⟨[], true, 100, 120, 1/2, 1/192, 96⟩
              ⟨"lead-0".toList, "lead".toList, "sine-0".toList, [], 1/2, none, 0⟩).stepTicks
      ∧ (100 : ℤ) ≤ (loadOnePattern ⟨[], true, 100, 120, 1/2, 1/192, 96⟩
          ⟨"lead-0".toList, "lead".toList, "sine-0".toList, [], 1/2, none, 0⟩).nextTick) := by
  refine ⟨rfl, by decide, ?_⟩
  exact claim_C5_hot_reload_realignment
    ⟨[], true, 100, 120, 1/2, 1/192, 96⟩
    [⟨"lead-0".toList, "lead".toList, "sine-0".toList, [], 1/2, none, 0⟩]
    rfl (by decide) "lead-0".toList _ (by with_unfolding_all rfl)

/-- C10: `setBPM(n)` silently clamps the BPM to [60, 200], recomputes the
per-tick duration as `60/bpm/ppq` from the clamped value, reports no
error, and discards the previous BPM entirely. -/
theorem claim_C10_setBPM_clamps (st st2 : EngineState) (n : ℚ) :
    (setBPM st n).bpm = max 60 (min 200 n)
    ∧ 60 ≤ (setBPM st n).bpm
    ∧ (setBPM st n).bpm ≤ 200
    ∧ (n < 60 → (setBPM st n).bpm = 60)
    ∧ (200 < n → (setBPM st n).bpm = 200)
    ∧ (setBPM st n).tickSec = 60 / (setBPM st n).bpm / st.ppq
    ∧ (setBPM st n).stepDuration = 60 / (setBPM st n).bpm
    ∧ (setBPM st n).bpm = (setBPM st2 n).bpm
    ∧ (setBPM st n).patterns = st.patterns
    ∧ (setBPM st n).isPlaying = st.isPlaying
    ∧ (setBPM st n).currentTick = st.currentTick := by
  refine ⟨rfl, le_max_left _ _, ?_, ?_, ?_, rfl, rfl, rfl, rfl, rfl, rfl⟩
  · exact max_le (by norm_num) (min_le_left _ _)
  · intro h
    have h200 : n ≤ 200 := le_of_lt (lt_trans h (by norm_num))
    show max 60 (min 200 n) = 60
    rw [min_eq_right h200]
    exact max_eq_left (le_of_lt h)
  · intro h
    show max 60 (min 200 n) = 200
    rw [min_eq_left (le_of_lt h)]
    norm_num

/-- C10 witness: `setBPM(30)` stores 60 whatever the previous state was. -/
theorem claim_C10_setBPM_clamps_witness :
    (setBPM ⟨[], false, 0, 120, 1/2, 1/192, 96⟩ 30).bpm = max 60 (min 200 30)
    ∧ ((30 : ℚ) < 60 → (setBPM ⟨[], false, 0, 120, 1/2, 1/192, 96⟩ 30).bpm = 60)
    ∧ (setBPM ⟨[], false, 0, 120, 1/2, 1/192, 96⟩ 30).tickSec
        = 60 / (setBPM ⟨[], false, 0, 120, 1/2, 1/192, 96⟩ 30).bpm
            / (⟨[], false, 0, 120, 1/2, 1/192, 96⟩ : EngineState).ppq := by
  have h := claim_C10_setBPM_clamps ⟨[], false, 0, 120, 1/2, 1/192, 96⟩
    ⟨[], true, 7, 90, 1, 1, 48⟩ 30
  exact ⟨h.1, h.2.2.2.1, h.2.2.2.2.2.1⟩

end Micro

namespace Micro

/-!
## Parameter values (graph-parser.mjs:491-516) and numeric literals

`parseFloat` / `Number` are modelled on ℚ (decimal mantissa with
optional exponent; `Infinity`/hex forms never arise in this grammar and
are not modelled — they would parse as plain strings).
-/

/-- A parsed parameter value: number, boolean, string, or the
dB-annotated record `{unit:'dB', value:v}`. -/
inductive Value where
  | num (q : ℚ)
  | boolean (b : Bool)
  | str (s : Str)
  | db (v : ℚ)
deriving DecidableEq

/-- Leading `\d+(\.\d+)?` with its value and the remaining characters
(the fractional group is skipped when `.` is not followed by digits,
as regex backtracking does). -/
def parseNumLeading (s : Str) : Option (ℚ × Str) :=
  let ds := s.takeWhile isDigit
  if ds = [] then none
  else
    let r := s.dropWhile isDigit
    match r with
    | '.' :: x =>
      let fd := x.takeWhile isDigit
      if fd = [] then some ((digitsToNat ds : ℚ), r)
      else some ((digitsToNat ds : ℚ) + fracToRat fd, x.dropWhile isDigit)
    | _ => some ((digitsToNat ds : ℚ), r)

/-- JS `parseFloat`: skip leading whitespace, optional sign, decimal
mantissa (at least one digit), optional well-formed exponent; trailing
garbage is ignored; `none` models `NaN`. -/
def parseFloatQ (s : Str) : Option ℚ :=
  let s1 := s.dropWhile isWS
  let sgn : ℚ := match s1 with
    | '-' :: _ => -1
    | _ => 1
  let s2 : Str := match s1 with
    | '-' :: r => r
    | '+' :: r => r
    | r => r
  let intDigits := s2.takeWhile isDigit
  let s3 := s2.dropWhile isDigit
  let fracDigits : Str := match s3 with
    | '.' :: r => r.takeWhile isDigit
    | _ => []
  let s4 : Str := match s3 with
    | '.' :: r => r.dropWhile isDigit
    | r => r
  if intDigits = [] ∧ fracDigits = [] then none
  else some (sgn * ((digitsToNat intDigits : ℚ) + fracToRat fracDigits) * expFactor s4)
where
  /-- Optional exponent `e±ddd`; ill-formed exponents contribute nothing
  (parseFloat backs off). -/
  expFactor : Str → ℚ
    | 'e' :: r => expTail r
    | 'E' :: r => expTail r
    | _ => 1
  expTail (r : Str) : ℚ :=
    let esgn : ℤ := match r with
      | '-' :: _ => -1
      | _ => 1
    let r1 : Str := match r with
      | '-' :: x => x
      | '+' :: x => x
      | x => x
    let ds := r1.takeWhile isDigit
    if ds = [] then 1 else (10 : ℚ) ^ (esgn * (digitsToNat ds : ℤ))

/-- Strict exponent for `Number()`: sign and at least one digit, to the
end of the string; else the whole literal is NaN. -/
def strictExp (r : Str) : Option ℚ :=
  let esgn : ℤ := match r with
    | '-' :: _ => -1
    | _ => 1
  let r1 : Str := match r with
    | '-' :: x => x
    | '+' :: x => x
    | x => x
  let ds := r1.takeWhile isDigit
  if ds = [] ∨ r1.dropWhile isDigit ≠ [] then none
  else some ((10 : ℚ) ^ (esgn * (digitsToNat ds : ℤ)))

/-- JS `Number(str)`: trims, empty string is 0, otherwise the whole
string must be a decimal literal; `none` models `NaN`. -/
def jsNumber (s : Str) : Option ℚ :=
  let t := trim s
  if t = [] then some 0
  else
    let sgn : ℚ := match t with
      | '-' :: _ => -1
      | _ => 1
    let t1 : Str := match t with
      | '-' :: r => r
      | '+' :: r => r
      | r => r
    let intDigits := t1.takeWhile isDigit
    let t2 := t1.dropWhile isDigit
    let fracDigits : Str := match t2 with
      | '.' :: r => r.takeWhile isDigit
      | _ => []
    let t3 : Str := match t2 with
      | '.' :: r => r.dropWhile isDigit
      | r => r
    if intDigits = [] ∧ fracDigits = [] then none
    else
      let base : ℚ := (digitsToNat intDigits : ℚ) + fracToRat fracDigits
      match t3 with
      | [] => some (sgn * base)
      | 'e' :: r => (strictExp r).map (fun f => sgn * base * f)
      | 'E' :: r => (strictExp r).map (fun f => sgn * base * f)
      | _ => none

/-- Case-insensitive `\s*Hz` suffix check up to end of string. -/
def hzSuffix (r : Str) : Bool :=
  match r.dropWhile isWS with
  | [c1, c2] => (c1 = 'H' || c1 = 'h') && (c2 = 'z' || c2 = 'Z')
  | _ => false

/-- The regex `^\d+(?:\.\d+)?\s*Hz$/i` of `parseSingleNoteToken`. -/
def isHzToken (s : Str) : Bool :=
  match parseNumLeading s with
  | some (_, r) => hzSuffix r
  | none => false

/-- The regex of `playNote` capturing the numeric Hz value. -/
def hzMatchVal (s : Str) : Option ℚ :=
  match parseNumLeading s with
  | some (v, r) => if hzSuffix r then some v else none
  | none => none

/-- The decibel regex `^\s*(-?\d+(?:\.\d+)?)\s*dB\s*$/i` of
`parseParameterValue` and `resolveGainValue`, capturing the dB value. -/
def matchDB (s : Str) : Option ℚ :=
  let s1 := s.dropWhile isWS
  let sgn : ℚ := match s1 with
    | '-' :: _ => -1
    | _ => 1
  let s2 : Str := match s1 with
    | '-' :: r => r
    | r => r
  match parseNumLeading s2 with
  | none => none
  | some (v, r) =>
    match r.dropWhile isWS with
    | [c1, c2] =>
      if (c1 = 'd' || c1 = 'D') && (c2 = 'b' || c2 = 'B') then some (sgn * v) else none
    | c1 :: c2 :: rest =>
      if (c1 = 'd' || c1 = 'D') && (c2 = 'b' || c2 = 'B') && rest.dropWhile isWS = []
      then some (sgn * v) else none
    | _ => none

def strStarts (s : Str) (c : Char) : Bool :=
  match s with
  | x :: _ => x = c
  | [] => false

def strEnds (s : Str) (c : Char) : Bool := strStarts s.reverse c

/-- `parseParameterValue(valueStr)` (graph-parser.mjs:491-516): dB
literal, then number, then boolean, then quoted or raw string. -/
def parseParameterValue (valueStr : Str) : Value :=
  match matchDB valueStr with
  | some db => Value.db db
  | none =>
    match parseFloatQ valueStr with
    | some num => Value.num num
    | none =>
      if valueStr = "true".toList then Value.boolean true
      else if valueStr = "false".toList then Value.boolean false
      else if (strStarts valueStr '"' && strEnds valueStr '"')
          || (strStarts valueStr '\'' && strEnds valueStr '\'') then
        Value.str (valueStr.drop 1).dropLast
      else Value.str valueStr

/-- `resolveGainValue(value, defaultValue)` from the audio graph builder
(src/unnamed/part_011:56-72): convert a parameter value to linear gain;
`Math.pow(10, db/20)` is modelled exactly on ℝ. -/
noncomputable def resolveGainValue (value : Option Value) (defaultValue : ℝ) : ℝ :=
  match value with
  | none => defaultValue
  | some (Value.num q) => (q : ℝ)
  | some (Value.db v) => (10 : ℝ) ^ ((v : ℝ) / 20)
  | some (Value.str s) =>
    match matchDB s with
    | some db => (10 : ℝ) ^ ((db : ℝ) / 20)
    | none =>
      match parseFloatQ s with
      | some num => (num : ℝ)
      | none => defaultValue
  | some (Value.boolean _) => defaultValue

/-- The MIDI/Hz conversion of `playNote` (audio-engine.mjs:279-296): a
number is a MIDI note (`440·2^((n-69)/12)`), a literal `NNNHz` string is
taken as Hz directly, other strings fall back to `parseFloat` or 440. -/
noncomputable def noteFrequency (note : NoteTok) : ℝ :=
  match note with
  | NoteTok.num n => 440 * (2 : ℝ) ^ (((n : ℝ) - 69) / 12)
  | NoteTok.str s =>
    match hzMatchVal s with
    | some hz => (hz : ℝ)
    | none =>
      match parseFloatQ s with
      | some n => (n : ℝ)
      | none => 440
  | _ => 440

/-- C8: `-6dB` parses to the dB-annotated record `{unit:'dB', value:-6}`
(no conversion at parse time), and `resolveGainValue` converts it to
linear gain `10^(-6/20)`, which lies in (0.501, 0.502), i.e. ≈ 0.5012. -/
theorem claim_C8_decibel_parameter :
    parseParameterValue "-6dB".toList = Value.db (-6)
    ∧ resolveGainValue (some (Value.db (-6))) 1 = (10 : ℝ) ^ ((-6 : ℝ) / 20)
    ∧ (0.501 : ℝ) < resolveGainValue (some (Value.db (-6))) 1
    ∧ resolveGainValue (some (Value.db (-6))) 1 < (0.502 : ℝ) := by
  have hval : resolveGainValue (some (Value.db (-6))) 1
      = (10 : ℝ) ^ ((-6 : ℝ) / 20) := by
    show (10 : ℝ) ^ ((((-6 : ℚ) : ℝ)) / 20) = (10 : ℝ) ^ ((-6 : ℝ) / 20)
    norm_num
  have hpos : (0 : ℝ) < (10 : ℝ) ^ ((-6 : ℝ) / 20) :=
    Real.rpow_pos_of_pos (by norm_num) _
  have hpow : ((10 : ℝ) ^ ((-6 : ℝ) / 20)) ^ (10 : ℕ) = 1 / 1000 := by
    rw [← Real.rpow_natCast ((10 : ℝ) ^ ((-6 : ℝ) / 20)) 10,
      ← Real.rpow_mul (by norm_num : (0 : ℝ) ≤ 10)]
    norm_num
  refine ⟨by with_unfolding_all decide, hval, ?_, ?_⟩
  · rw [hval]
    by_contra hcon
    push_neg at hcon
    have h10 : ((10 : ℝ) ^ ((-6 : ℝ) / 20)) ^ (10 : ℕ) ≤ (0.501 : ℝ) ^ (10 : ℕ) :=
      pow_le_pow_left (le_of_lt hpos) hcon 10
    rw [hpow] at h10
    norm_num at h10
  · rw [hval]
    have hlt : ((10 : ℝ) ^ ((-6 : ℝ) / 20)) ^ (10 : ℕ) < (0.502 : ℝ) ^ (10 : ℕ) := by
      rw [hpow]
      norm_num
    exact lt_of_pow_lt_pow_left 10 (by norm_num) hlt

end Micro

namespace Micro

/-!
## Graph parser state and reference resolution (src/graph-parser.mjs)
-/

/-- Modelled from the spec: `constants.mjs` is not among the provided
sources; spec §6 fixes the reserved output-sink keyword as `OUT`. -/
def OUTPUT_KEYWORD : Str := "OUT".toList

/-- A parsed node: `{ type, parameters, name }`. -/
structure NodeDef where
  type : Str
  parameters : List (Str × Value)
  name : Option Str
deriving DecidableEq

/-- A connection `{ from, to, toParam? }` (`from` and `to` are Lean
keywords, hence the trailing underscores). -/
structure Connection where
  from_ : Str
  to_ : Str
  toParam : Option Str
deriving DecidableEq

/-- `RouteDefinition` (graph-parser.mjs:879-886). -/
structure RouteDefinition where
  name : Str
  firstNode : Str
  lastNode : Str
  allNodes : List Str
deriving DecidableEq

/-- A pattern variable binding `{ notes, duration, events, wrapCarryBeats }`
(graph-parser.mjs:221-225; `notes`/`duration` are kept only as legacy
fields and always set to `[]`/1). -/
structure PatternVar where
  notes : List NoteTok
  duration : ℚ
  events : List Event
  wrapCarryBeats : ℚ

/-- The parser's mutable tables (graph-parser.mjs:9-16). -/
structure ParserState where
  nodes : List (Str × NodeDef)
  connections : List Connection
  patterns : List (Str × PatternDef)
  patternVars : List (Str × PatternVar)
  namedRoutes : List (Str × RouteDefinition)
  errors : List ErrMsg

/-- A reference expression `IDENT ([INDEX])? (.PARAM)?`. -/
structure RefExpr where
  name : Str
  index : Option ℕ
  param : Option Str

/-- The `context` argument of `resolveNodeOrRoute`. -/
inductive Ctx where
  | source
  | target
deriving DecidableEq

/-- `resolveNodeOrRoute(name, context)` (graph-parser.mjs:792-803): a
route resolves to its `lastNode` as a source and `firstNode` as a
target; anything else resolves to itself. -/
def resolveNodeOrRoute (st : ParserState) (name : Str) (context : Ctx) : Str :=
  match mapGet st.namedRoutes name with
  | some route =>
    match context with
    | Ctx.source => route.lastNode
    | Ctx.target => route.firstNode
  | none => name

/-- The expansion loop of `resolveNodeOrRouteWithIndex`
(graph-parser.mjs:818-824): the route's `allNodes` with the `OUT`
sentinel skipped and nested routes resolved to their first node. -/
def expandRoute (st : ParserState) (route : RouteDefinition) : List Str :=
  (route.allNodes.filter (fun item => item ≠ OUTPUT_KEYWORD)).map
    (fun item => resolveNodeOrRoute st item Ctx.target)

/-- `resolveNodeOrRouteWithIndex(name, index, context)`
(graph-parser.mjs:809-830); returns the resolved node name and the state
(with an error appended for an unknown route or an out-of-range index,
which degrades to the last available node). -/
def resolveNodeOrRouteWithIndex (st : ParserState) (name : Str)
    (index : Option ℕ) (context : Ctx) : Str × ParserState :=
  match index with
  | none => (resolveNodeOrRoute st name context, st)
  | some i =>
    match mapGet st.namedRoutes name with
    | none =>
      (name, { st with errors := st.errors ++ [ErrMsg.cannotIndexUnknownRoute name i] })
    | some route =>
      let expanded := expandRoute st route
      if i < expanded.length then (expanded.getD i name, st)
      else
        (expanded.getLastD name,
         { st with errors := st.errors
            ++ [ErrMsg.routeIndexOutOfRange name i expanded.length] })

/-- `generateNodeName`/`generatePatternName`'s
`while (map.has(base-counter)) counter++` loop; `map.length + 1`
candidates always suffice, so the fuel never runs out on reachable
states. -/
def genUniqueName {α : Type} (m : List (Str × α)) (base : Str) : ℕ → ℕ → Str
  | 0, counter => base ++ '-' :: natToStr counter
  | fuel + 1, counter =>
    let candidate := base ++ '-' :: natToStr counter
    if mapHasKey m candidate then genUniqueName m base fuel (counter + 1)
    else candidate

/-- `generateNodeName(node)` (graph-parser.mjs:866-875). -/
def generateNodeName (nodes : List (Str × NodeDef)) (node : NodeDef) : Str :=
  genUniqueName nodes node.type (nodes.length + 1) 0

/-- `generatePatternName(target)` (graph-parser.mjs:853-861). -/
def generatePatternName (pats : List (Str × PatternDef)) (target : Str) : Str :=
  genUniqueName pats target (pats.length + 1) 0

/-- `isValidRouteName` (graph-parser.mjs:782-784). -/
def isValidRouteName (name : Str) : Bool :=
  match name with
  | [] => false
  | c :: r => isIdentStart c && r.all isWordChar

/-- `parseReferenceExpression(expression)` (graph-parser.mjs:840-848):
the anchored regex `^([a-zA-Z_][a-zA-Z0-9_]*)\s*(?:\[(\d+)\])?\s*(?:\.(\w+))?$`. -/
def parseReferenceExpression (expression : Str) : Option RefExpr :=
  match expression with
  | [] => none
  | c :: r =>
    if ¬ isIdentStart c then none
    else
      let ident := c :: r.takeWhile isWordChar
      let s1 := (r.dropWhile isWordChar).dropWhile isWS
      match s1 with
      | '[' :: t =>
        let ds := t.takeWhile isDigit
        match t.dropWhile isDigit with
        | ']' :: t2 =>
          if ds = [] then none
          else refTail ident (some (digitsToNat ds)) t2
        | _ => none
      | _ => refTail ident none s1
where
  refTail (ident : Str) (idx : Option ℕ) (s : Str) : Option RefExpr :=
    match s.dropWhile isWS with
    | [] => some ⟨ident, idx, none⟩
    | '.' :: t =>
      if t ≠ [] ∧ t.all isWordChar then some ⟨ident, idx, some t⟩ else none
    | _ => none

end Micro

namespace Micro

/-!
## Parameter blocks, node expressions, assignment and pattern line forms
-/

/-- Split at the first occurrence of a character (JS `indexOf` +
`substring` pair); `none` when absent. -/
def splitAtFirst (c : Char) : Str → Option (Str × Str)
  | [] => none
  | x :: r =>
    if x = c then some ([], r)
    else (splitAtFirst c r).map (fun p => (x :: p.1, p.2))

/-- `splitParameters(content)` (graph-parser.mjs:460-486): split on
top-level commas/newlines, respecting nested braces; parts are trimmed
and empty parts dropped. -/
def splitParameters (content : Str) : List Str :=
  go content 0 [] []
where
  go : Str → ℤ → Str → List Str → List Str
    | [], _, current, parts =>
      if trim current.reverse = [] then parts else parts ++ [trim current.reverse]
    | c :: rest, depth, current, parts =>
      let d := if c = '\x7b' then depth + 1 else if c = '\x7d' then depth - 1 else depth
      if d = 0 ∧ (c = ',' ∨ c = '\n') then
        if trim current.reverse = [] then go rest d [] parts
        else go rest d [] (parts ++ [trim current.reverse])
      else go rest d (c :: current) parts

/-- `parseParameterBlock(block)` (graph-parser.mjs:419-455): `none`
models the JS `null` return; the second component is the list of
`Invalid parameter syntax` errors pushed while scanning. -/
def parseParameterBlock (block : Str) : Option (List (Str × Value)) × List ErrMsg :=
  let b := trim block
  if ¬ (strStarts b '\x7b' && strEnds b '\x7d') then (none, [])
  else
    let content := trim (b.drop 1).dropLast
    if content = [] then (some [], [])
    else
      let acc := (splitParameters content).foldl
        (fun (acc : List (Str × Value) × List ErrMsg) part =>
          let t := trim part
          if t = [] then acc
          else
            match splitAtFirst '=' t with
            | none => (acc.1, acc.2 ++ [ErrMsg.invalidParameterSyntax t])
            | some (k, v) =>
              (mapSet acc.1 (trim k) (parseParameterValue (trim v)), acc.2))
        ([], [])
      (some acc.1, acc.2)

/-- `parseNodeExpression(expression)` (graph-parser.mjs:385-409): `none`
when the expression has no parameter block (a bare reference) or the
block fails to parse (with the pushed error returned alongside). -/
def parseNodeExpression (expression : Str) : Option NodeDef × List ErrMsg :=
  let e := trim expression
  if ¬ e.contains '\x7b' then (none, [])
  else
    let nodeType := trim (e.takeWhile (fun c => c ≠ '\x7b'))
    let parameterBlock := e.dropWhile (fun c => c ≠ '\x7b')
    match parseParameterBlock parameterBlock with
    | (none, errs) => (none, errs ++ [ErrMsg.failedParameterBlock parameterBlock])
    | (some ps, errs) => (some ⟨nodeType, ps, none⟩, errs)

/-- `parseDuration(durationStr)` (graph-parser.mjs:521-540): a fraction
`a/b` (b ≠ 0) or a plain number; `none` models `null`. -/
def parseDuration (durationStr : Str) : Option ℚ :=
  let d := trim durationStr
  if d.contains '/' then
    match splitChar '/' d with
    | [a, b] =>
      match parseFloatQ a, parseFloatQ b with
      | some x, some y => if y ≠ 0 then some (x / y) else none
      | _, _ => none
    | _ => none
  else parseFloatQ d

/-- `findAssignmentOperator` (graph-parser.mjs:177-188): the first `=`
at brace depth 0, splitting the line into the parts before and after. -/
def findAssignPos : Str → ℤ → Option (Str × Str)
  | [], _ => none
  | c :: rest, depth =>
    let d := if c = '\x7b' then depth + 1 else if c = '\x7d' then depth - 1 else depth
    if c = '=' ∧ d = 0 then some ([], rest)
    else (findAssignPos rest d).map (fun p => (c :: p.1, p.2))

def splitAssign (line : Str) : Option (Str × Str) := findAssignPos line 0

/-- `isAssignmentLine` (graph-parser.mjs:161-172). -/
def isAssignmentLine (line : Str) : Bool := (splitAssign line).isSome

/-- The regex `^\s*([a-zA-Z_][a-zA-Z0-9_]*)\s*=\s*(.+)$` of
`isPatternVarDefinition`, returning the identifier and the RHS capture
(when all characters after `=` are whitespace, backtracking makes `(.+)`
capture the final whitespace character). -/
def matchIdentAssign (line : Str) : Option (Str × Str) :=
  match line.dropWhile isWS with
  | [] => none
  | c :: r =>
    if ¬ isIdentStart c then none
    else
      let ident := c :: r.takeWhile isWordChar
      match (r.dropWhile isWordChar).dropWhile isWS with
      | '=' :: t =>
        let rhs := t.dropWhile isWS
        if rhs = [] then
          match t with
          | [] => none
          | _ => some (ident, [t.getLastD ' '])
        else some (ident, rhs)
      | _ => none

/-- `isPatternVarDefinition(line)` (graph-parser.mjs:148-156). -/
def isPatternVarDefinition (line : Str) : Bool :=
  match matchIdentAssign line with
  | none => false
  | some (_, rhs) =>
    if rhs.contains '\x7b' || containsArrow rhs then false
    else rhs.contains '[' || containsPlusPlus rhs

/-- The regex `^@?(\w+)\s*=\s*(.+)$` of the pattern-variable pass
(graph-parser.mjs:211). -/
def matchAtVarDef (line : Str) : Option (Str × Str) :=
  let s0 : Str := match line with
    | '@' :: r => r
    | r => r
  match s0 with
  | [] => none
  | c :: _ =>
    if ¬ isWordChar c then none
    else
      let ident := s0.takeWhile isWordChar
      match (s0.dropWhile isWordChar).dropWhile isWS with
      | '=' :: t =>
        let rhs := t.dropWhile isWS
        if rhs = [] then
          match t with
          | [] => none
          | _ => some (ident, [t.getLastD ' '])
        else some (ident, rhs)
      | _ => none

/-- The test `/^@?\w+\s*=/.test(line)` of the trigger pass
(graph-parser.mjs:232). -/
def testAtWordEq (line : Str) : Bool :=
  let s0 : Str := match line with
    | '@' :: r => r
    | r => r
  match s0 with
  | c :: _ =>
    isWordChar c &&
      (match (s0.dropWhile isWordChar).dropWhile isWS with
       | '=' :: _ => true
       | _ => false)
  | [] => false

/-- The regex `^@(\w+)\s+(.+)$` of `parsePattern` (graph-parser.mjs:548). -/
def matchAtTrigger (line : Str) : Option (Str × Str) :=
  match line with
  | '@' :: r =>
    match r with
    | c :: _ =>
      if ¬ isWordChar c then none
      else
        let ident := r.takeWhile isWordChar
        let s2 := r.dropWhile isWordChar
        let ws := s2.takeWhile isWS
        let tail := s2.dropWhile isWS
        if ws = [] then none
        else if tail ≠ [] then some (ident, tail)
        else if 2 ≤ ws.length then some (ident, [ws.getLastD ' '])
        else none
    | [] => none
  | _ => none

/-- The regex `^@(\w+)\s+(\w+)$` of `parsePattern` (graph-parser.mjs:563). -/
def matchAtVarUse (line : Str) : Option (Str × Str) :=
  match line with
  | '@' :: r =>
    match r with
    | c :: _ =>
      if ¬ isWordChar c then none
      else
        let ident := r.takeWhile isWordChar
        let s2 := r.dropWhile isWordChar
        let ws := s2.takeWhile isWS
        let rest := s2.dropWhile isWS
        if ws = [] then none
        else
          match rest with
          | c2 :: _ =>
            if isWordChar c2 ∧ rest.all isWordChar then some (ident, rest) else none
          | [] => none
    | [] => none
  | _ => none

end Micro

namespace Micro

/-!
## Note sequences and chained segments
-/

/-- `parseSingleNoteToken(tok)` (graph-parser.mjs:647-654). -/
def parseSingleNoteToken (tok : Str) : NoteTok :=
  if tok = "_".toList then NoteTok.null
  else if tok = "-".toList then NoteTok.str ['-']
  else if isHzToken tok then NoteTok.str tok
  else
    match jsNumber tok with
    | some num => NoteTok.num num
    | none => NoteTok.str tok

/-- Split on whitespace runs (`content.split(/\s+/).filter(Boolean)`). -/
def splitWS (s : Str) : List Str :=
  go s []
where
  go : Str → Str → List Str
    | [], acc => if acc = [] then [] else [acc.reverse]
    | c :: r, acc =>
      if isWS c then
        if acc = [] then go r [] else acc.reverse :: go r []
      else go r (c :: acc)

/-- The chord-modifier regex `^\s*(?:@(\d+(?:\.\d+)?))?\s*(?:\?(\d+(?:\.\d+)?))?`
applied after `)` (graph-parser.mjs:613-624): yields the clamped
velocity and probability and the remainder after the match, provided at
least one group matched. -/
def chordModMatch (rest : Str) : Option (ℚ × ℚ × Str) :=
  let s1 := rest.dropWhile isWS
  let velStep : Option ℚ × Str :=
    match s1 with
    | '@' :: t =>
      match parseNumLeading t with
      | some (v, r) => (some v, r)
      | none => (none, s1)
    | _ => (none, s1)
  let s3 := velStep.2.dropWhile isWS
  let probStep : Option ℚ × Str :=
    match s3 with
    | '?' :: t =>
      match parseNumLeading t with
      | some (v, r) => (some v, r)
      | none => (none, s3)
    | _ => (none, s3)
  match velStep.1, probStep.1 with
  | none, none => none
  | v, p =>
    let vel : ℚ := match v with
      | some x => max 0 (min 1 x)
      | none => 1
    let prob : ℚ := match p with
      | some x => max 0 (min 1 x)
      | none => 1
    some (vel, prob, probStep.2)

/-- Flush the token buffer (graph-parser.mjs:592-596). -/
def flushBuf (buf : Str) (out : List NoteTok) : List NoteTok :=
  if trim buf.reverse = [] then out
  else out ++ [parseSingleNoteToken (trim buf.reverse)]

/-- The character scanner of `parseNotesString` (graph-parser.mjs:586-642).
The fuel decreases on every step while at least one character is
consumed, so `length + 1` fuel reproduces the JS loop exactly. -/
def notesGo : ℕ → Str → Bool → Str → Str → List NoteTok → List NoteTok
  | 0, _, _, buf, _, out => flushBuf buf out
  | _ + 1, [], _, buf, _, out => flushBuf buf out
  | fuel + 1, ch :: rest, true, buf, chordBuf, out =>
    if ch = ')' then
      let content := trim chordBuf.reverse
      let items : List NoteTok :=
        if content = [] then [] else (splitWS content).map parseSingleNoteToken
      match chordModMatch rest with
      | some (vel, prob, rest2) =>
        notesGo fuel rest2 false buf [] (out ++ [NoteTok.chordMod items vel prob])
      | none => notesGo fuel rest false buf [] (out ++ [NoteTok.chord items])
    else notesGo fuel rest true buf (ch :: chordBuf) out
  | fuel + 1, ch :: rest, false, buf, chordBuf, out =>
    if ch = '(' then notesGo fuel rest true [] chordBuf (flushBuf buf out)
    else if isWS ch then notesGo fuel rest false [] chordBuf (flushBuf buf out)
    else notesGo fuel rest false (ch :: buf) chordBuf out

/-- `parseNotesString(notesStr)` (graph-parser.mjs:586-642): tokenize a
bracketed note sequence, collecting chords and their modifiers; an
unclosed parenthesis is silently dropped. -/
def parseNotesString (notesStr : Str) : List NoteTok :=
  notesGo (notesStr.length + 1) notesStr false [] [] []

/-- Characters of the duration region: up to the next `++` delimiter. -/
def takeUntilPlusPlus : Str → Str
  | [] => []
  | '+' :: '+' :: _ => []
  | c :: r => c :: takeUntilPlusPlus r

/-- Remainder after the next `++` delimiter (empty when there is none). -/
def dropThroughPlusPlus : Str → Str
  | [] => []
  | '+' :: '+' :: r => r
  | _ :: r => dropThroughPlusPlus r

/-- The segment loop of `parseChainedSegments` (graph-parser.mjs:708-751),
consuming bracket segments `[tokens] duration` and pattern-variable
references separated by `++`, folding each through `appendSegment`.
Every iteration consumes at least one character, so `length + 1` fuel
reproduces the JS `while (i < s.length)` loop exactly. -/
def chainedGo (st : ParserState) : ℕ → Str → List Event → ℚ → Option (List Event × ℚ)
  | 0, _, evs, carry => some (evs, carry)
  | fuel + 1, s, evs, carry =>
    match s.dropWhile isWS with
    | [] => some (evs, carry)
    | '[' :: t =>
      if ¬ t.contains ']' then none
      else
        let notesStr := t.takeWhile (fun c => c ≠ ']')
        let afterBracket := ((t.dropWhile (fun c => c ≠ ']')).drop 1).dropWhile isWS
        let durationStr := trim (takeUntilPlusPlus afterBracket)
        let restAfter := dropThroughPlusPlus afterBracket
        match parseDuration durationStr with
        | none => none
        | some stepBeats =>
          if stepBeats ≤ 0 then none
          else
            let seg := makeEventsFromNotes (parseNotesString notesStr) stepBeats
            let next := appendSegment ⟨evs, carry⟩ seg
            chainedGo st fuel restAfter next.events next.leadingCarry
    | c :: t =>
      if ¬ isIdentStart c then none
      else
        let varName := c :: t.takeWhile isWordChar
        let after := (t.dropWhile isWordChar).dropWhile isWS
        let nextRest : Option Str :=
          match after with
          | [] => some []
          | '+' :: '+' :: r => some r
          | _ => none
        match nextRest with
        | none => none
        | some r =>
          match mapGet st.patternVars varName with
          | none => none
          | some pv =>
            -- JS takes the `pv.events` branch unconditionally: an array
            -- (even empty) is truthy
            let next := appendSegment ⟨evs, carry⟩ ⟨pv.events, pv.wrapCarryBeats⟩
            chainedGo st fuel r next.events next.leadingCarry

/-- `parseChainedSegments(str)` (graph-parser.mjs:684-754). -/
def parseChainedSegments (st : ParserState) (str : Str) : Option Segment :=
  let s := trim str
  if s = [] then none
  else
    match chainedGo st (s.length + 1) s [] 0 with
    | none => none
    | some (chainEvents, chainLeadingCarry) =>
      if chainEvents.isEmpty then none
      else some ⟨chainEvents, chainLeadingCarry⟩

/-- `addPattern(targetName, notes, duration, events, wrapCarryBeats)`
(graph-parser.mjs:761-777). -/
def addPattern (st : ParserState) (targetName : Str) (notes : List NoteTok)
    (duration : ℚ) (events : Option (List Event)) (wrapCarryBeats : ℚ) :
    ParserState :=
  let resolvedTarget := resolveNodeOrRoute st targetName Ctx.target
  let uniqueName := generatePatternName st.patterns targetName
  let pd : PatternDef :=
    ⟨uniqueName, targetName, resolvedTarget, notes, duration, events, wrapCarryBeats⟩
  { st with patterns := mapSet st.patterns uniqueName pd }

/-- The variable-usage form `@target varName` of `parsePattern`
(graph-parser.mjs:562-577) and its invalid-syntax fallback. -/
def parsePatternVarUse (st : ParserState) (line : Str) : ParserState :=
  match matchAtVarUse line with
  | some (targetName, varName) =>
    match mapGet st.patternVars varName with
    | none => { st with errors := st.errors ++ [ErrMsg.unknownPatternVariable varName] }
    | some pv =>
      -- `if (def.events)` — always truthy (arrays), so the events branch
      addPattern st targetName [] 1 (some pv.events) pv.wrapCarryBeats
  | none => { st with errors := st.errors ++ [ErrMsg.invalidPatternSyntax line] }

/-- `parsePattern(line)` (graph-parser.mjs:546-581). -/
def parsePattern (st : ParserState) (line : Str) : ParserState :=
  match matchAtTrigger line with
  | some (targetName, tail) =>
    match parseChainedSegments st (trim tail) with
    | some seg => addPattern st targetName [] 1 (some seg.events) seg.wrapCarryBeats
    | none => parsePatternVarUse st line
  | none => parsePatternVarUse st line

/-- `parsePatterns(lines)` (graph-parser.mjs:208-235): first collect
pattern-variable definitions, then parse the `@target` trigger lines. -/
def parsePatterns (st : ParserState) (lines : List Str) : ParserState :=
  let st1 := lines.foldl
    (fun stA line =>
      match matchAtVarDef line with
      | none => stA
      | some (varName, rhs) =>
        if ¬ isPatternVarDefinition line then stA
        else
          match parseChainedSegments stA (trim rhs) with
          | none =>
            { stA with errors := stA.errors ++ [ErrMsg.invalidPatternDefinition varName rhs] }
          | some seg =>
            let pv : PatternVar := ⟨[], 1, seg.events, seg.wrapCarryBeats⟩
            { stA with patternVars := mapSet stA.patternVars varName pv }) st
  lines.foldl
    (fun stA line =>
      if ¬ strStarts line '@' then stA
      else if testAtWordEq line then stA
      else parsePattern stA line) st1

end Micro

namespace Micro

/-!
## Chain and routing statements
-/

/-- One step of the node-collection loop of `parseNamedChain`
(graph-parser.mjs:252-268): an inline node expression creates a fresh
node; `OUT` and bare references are recorded by name. -/
def namedChainCollect (acc : ParserState × List Str) (part : Str) :
    ParserState × List Str :=
  let stA := acc.1
  match parseNodeExpression part with
  | (some node, errs) =>
    let stB := { stA with errors := stA.errors ++ errs }
    let nodeName := generateNodeName stB.nodes node
    let node2 := { node with name := some nodeName }
    ({ stB with nodes := mapSet stB.nodes nodeName node2 }, acc.2 ++ [nodeName])
  | (none, errs) =>
    let stB := { stA with errors := stA.errors ++ errs }
    if part = OUTPUT_KEYWORD then (stB, acc.2 ++ [OUTPUT_KEYWORD])
    else (stB, acc.2 ++ [part])

/-- One step of the connection loop of `parseNamedChain`
(graph-parser.mjs:271-288). -/
def namedChainConnect (stA : ParserState) (rawFrom rawTo : Str) : ParserState :=
  let resolvedFrom := resolveNodeOrRoute stA rawFrom Ctx.source
  match parseReferenceExpression rawTo with
  | some refTo =>
    let resolved := resolveNodeOrRouteWithIndex stA refTo.name refTo.index Ctx.target
    { resolved.2 with connections :=
        resolved.2.connections ++ [⟨resolvedFrom, resolved.1, refTo.param⟩] }
  | none =>
    let resolvedTo := resolveNodeOrRoute stA rawTo Ctx.target
    { stA with connections := stA.connections ++ [⟨resolvedFrom, resolvedTo, none⟩] }

/-- `parseNamedChain(name, definition)` (graph-parser.mjs:241-299). -/
def parseNamedChain (st : ParserState) (name definition : Str) : ParserState :=
  let parts := (splitArrow definition).map trim
  if parts.isEmpty then
    { st with errors := st.errors ++ [ErrMsg.emptyRouteDefinition name] }
  else
    let collected := parts.foldl namedChainCollect (st, [])
    let nodeNames := collected.2
    let st2 := (nodeNames.zip nodeNames.tail).foldl
      (fun stA p => namedChainConnect stA p.1 p.2) collected.1
    match nodeNames with
    | [] => st2
    | firstNode :: restNames =>
      let lastNodeName := (firstNode :: restNames).getLastD []
      let lastNode := resolveNodeOrRoute st2 lastNodeName Ctx.source
      let rd : RouteDefinition := ⟨name, firstNode, lastNode, firstNode :: restNames⟩
      { st2 with namedRoutes := mapSet st2.namedRoutes name rd }

/-- One step of the target loop of `parseRouting`
(graph-parser.mjs:322-374), threading the current chain node. -/
def routingStep (acc : ParserState × Str) (targetExpression : Str) :
    ParserState × Str :=
  let stA := acc.1
  let currentNodeName := acc.2
  match parseNodeExpression targetExpression with
  | (some targetNode, errs) =>
    let stB := { stA with errors := stA.errors ++ errs }
    let targetName := generateNodeName stB.nodes targetNode
    let node2 := { targetNode with name := some targetName }
    let stC := { stB with nodes := mapSet stB.nodes targetName node2 }
    ({ stC with connections := stC.connections ++ [⟨currentNodeName, targetName, none⟩] },
     targetName)
  | (none, errs) =>
    let stB := { stA with errors := stA.errors ++ errs }
    if targetExpression = OUTPUT_KEYWORD then
      ({ stB with connections :=
          stB.connections ++ [⟨currentNodeName, OUTPUT_KEYWORD, none⟩] },
       currentNodeName)
    else
      match parseReferenceExpression targetExpression with
      | some ref =>
        let resolved := resolveNodeOrRouteWithIndex stB ref.name ref.index Ctx.target
        match ref.param with
        | some prm =>
          -- a `.param` target does not advance the current chain node
          ({ resolved.2 with connections :=
              resolved.2.connections ++ [⟨currentNodeName, resolved.1, some prm⟩] },
           currentNodeName)
        | none =>
          ({ resolved.2 with connections :=
              resolved.2.connections ++ [⟨currentNodeName, resolved.1, none⟩] },
           resolved.1)
      | none =>
        let resolvedTarget := resolveNodeOrRoute stB targetExpression Ctx.target
        ({ stB with connections :=
            stB.connections ++ [⟨currentNodeName, resolvedTarget, none⟩] },
         resolvedTarget)

/-- `parseRouting(line)` (graph-parser.mjs:305-375). -/
def parseRouting (st : ParserState) (line : Str) : ParserState :=
  let parts := (splitArrow line).map trim
  if parts.length < 2 then
    { st with errors := st.errors ++ [ErrMsg.invalidRoutingLine line] }
  else
    match parts with
    | [] => st
    | p0 :: rest =>
      let sourceRef := parseReferenceExpression p0
      let st1 :=
        match sourceRef with
        | some r =>
          if r.param.isSome then
            { st with errors := st.errors ++ [ErrMsg.connectFromParam p0] }
          else st
        | none => st
      let start : Str × ParserState :=
        match sourceRef with
        | some r => resolveNodeOrRouteWithIndex st1 r.name r.index Ctx.source
        | none => (resolveNodeOrRoute st1 p0 Ctx.source, st1)
      (rest.foldl routingStep (start.2, start.1)).1

/-- `parseNodeDefinitions(lines)` (graph-parser.mjs:122-141). -/
def parseNodeDefinitions (st : ParserState) (lines : List Str) : ParserState :=
  lines.foldl
    (fun stA line =>
      if ¬ strStarts line '@' ∧ isAssignmentLine line then
        if isPatternVarDefinition line then stA
        else
          match splitAssign line with
          | none => stA
          | some (before, after) =>
            let name := trim before
            let definition := trim after
            if ¬ isValidRouteName name then
              { stA with errors := stA.errors ++ [ErrMsg.invalidNodeName name] }
            else parseNamedChain stA name definition
      else stA) st

/-- `parseRoutingLines(lines)` (graph-parser.mjs:196-202). -/
def parseRoutingLines (st : ParserState) (lines : List Str) : ParserState :=
  lines.foldl
    (fun stA line =>
      if containsArrow line ∧ ¬ isAssignmentLine line ∧ ¬ strStarts line '@' then
        parseRouting stA line
      else stA) st

/-- `parse(code)` (graph-parser.mjs:23-41): preprocess, then the three
passes in order. -/
def parse (code : Str) : ParserState :=
  let pre := preprocessLines [] code
  let st0 : ParserState := ⟨[], [], [], [], [], pre.2⟩
  let st1 := parseNodeDefinitions st0 pre.1
  let st2 := parseRoutingLines st1 pre.1
  parsePatterns st2 pre.1

end Micro

namespace Micro

/-!
## Claims about whole-program parses and route indexing
-/

/-- The three-line program of the route-chaining scenario. -/
def progC1 : Str :=
  "chain = lowpass{frequency=800} -> delay{time=0.3}\nlead = sine{}\nlead -> chain -> OUT".toList

/-- C1 (divergence witness): on
`chain = lowpass{frequency=800} -> delay{time=0.3}` / `lead = sine{}` /
`lead -> chain -> OUT`, the parser emits the signal connections
`lowpass-0 -> delay-0`, `sine-0 -> lowpass-0` and `lowpass-0 -> OUT`:
after routing **into** the route `chain`, the chain continues from the
route's `firstNode` (`lowpass-0`), not its `lastNode` (`delay-0`), so the
edge to `OUT` originates from the lowpass node — even though the route's
own `lastNode` is `delay-0` (third conjunct) and the repository README
documents the result as `lead -> lowpass -> delay -> OUT`. -/
theorem claim_C1_route_chain_out_edge :
    (parse progC1).connections
      = [⟨"lowpass-0".toList, "delay-0".toList, none⟩,
         ⟨"sine-0".toList, "lowpass-0".toList, none⟩,
         ⟨"lowpass-0".toList, "OUT".toList, none⟩]
    ∧ mapGet (parse progC1).namedRoutes "chain".toList
      = some ⟨"chain".toList, "lowpass-0".toList, "delay-0".toList,
          ["lowpass-0".toList, "delay-0".toList]⟩
    ∧ (parse progC1).errors = [] := by
  refine ⟨?_, ?_, ?_⟩ <;> with_unfolding_all rfl

/-- The two-line program of the pattern scenario. -/
def progC2 : Str :=
  "lead = sine{decay=0.1, sustain=0}\n@lead [60 - - _ 440Hz -] 1/8".toList

/-- Number of events of the single pattern produced by `progC2`. -/
def progC2EventCount : Option ℕ :=
  match mapGet (parse progC2).patterns "lead-0".toList with
  | some p =>
    match p.events with
    | some evs => some evs.length
    | none => none
  | none => none

/-- C2 counterexample: the pattern parsed from
`@lead [60 - - _ 440Hz -] 1/8` has 3 events, not 4 as claimed — the
ties are absorbed into the preceding events, leaving `60` (3 steps),
one rest, and `440Hz` (2 steps). -/
theorem claim_C2_counterexample : progC2EventCount = some 3 ∧ progC2EventCount ≠ some 4 := by
  constructor
  · with_unfolding_all rfl
  · intro h
    rw [show progC2EventCount = some 3 from by with_unfolding_all rfl] at h
    simp at h

/-- C2 (amended): the program parses into exactly one instrument node
and one pattern whose event list has **3** events — MIDI note 60 held
for 3 steps (3·1/8 beats), a rest of 1 step, and the literal token
`440Hz` held for 2 steps — the `440Hz` token staying a literal-Hz string
that the engine's note-frequency conversion maps straight to 440 Hz,
bypassing the MIDI-to-Hz formula. -/
theorem claim_C2_amended_pattern_parse :
    (parse progC2).nodes
      = [("sine-0".toList,
          ⟨"sine".toList,
           [("decay".toList, Value.num (1/10)), ("sustain".toList, Value.num 0)],
           some "sine-0".toList⟩)]
    ∧ (parse progC2).patterns
      = [("lead-0".toList,
          ⟨"lead-0".toList, "lead".toList, "sine-0".toList, [], 1,
           some [⟨some (NoteTok.num 60), 3 * (1/8)⟩, ⟨none, 1/8⟩,
                 ⟨some (NoteTok.str "440Hz".toList), 2 * (1/8)⟩],
           0⟩)]
    ∧ (parse progC2).errors = []
    ∧ noteFrequency (NoteTok.str "440Hz".toList) = 440 := by
  refine ⟨by with_unfolding_all rfl, by with_unfolding_all rfl,
    by with_unfolding_all rfl, ?_⟩
  have h : hzMatchVal "440Hz".toList = some 440 := by with_unfolding_all rfl
  simp only [noteFrequency, h]
  norm_num

/-- C6: indexing into a named route resolves through the expanded chain
(`OUT` skipped, nested routes resolved to their first node): an in-range
index returns that chain position with no error, an out-of-range index
appends a route-index-out-of-range error and degrades to the last
available node instead of aborting. -/
theorem claim_C6_route_index_resolution (st : ParserState) (name : Str)
    (r : RouteDefinition) (hr : mapGet st.namedRoutes name = some r)
    (i : ℕ) (ctx : Ctx) :
    (i < (expandRoute st r).length →
      resolveNodeOrRouteWithIndex st name (some i) ctx
        = ((expandRoute st r).getD i name, st))
    ∧ ((expandRoute st r).length ≤ i →
      resolveNodeOrRouteWithIndex st name (some i) ctx
        = ((expandRoute st r).getLastD name,
           { st with errors := st.errors
              ++ [ErrMsg.routeIndexOutOfRange name i (expandRoute st r).length] })) := by
  constructor
  · intro hi
    unfold resolveNodeOrRouteWithIndex
    rw [hr]
    simp only [if_pos hi]
  · intro hi
    unfold resolveNodeOrRouteWithIndex
    rw [hr]
    simp only [if_neg (not_lt.mpr hi)]

/-- The parser state of the C6 witness: one route over the chain
`a -> b -> c`. -/
def stC6 : ParserState :=
  ⟨[], [], [], [],
   [("chain".toList,
     ⟨"chain".toList, "a".toList, "c".toList,
      ["a".toList, "b".toList, "c".toList]⟩)],
   []⟩

/-- C6 witness: in `stC6`, `chain[1]` resolves to `b` with no error and
`chain[3]` reports an out-of-range error and degrades to `c`. -/
theorem claim_C6_route_index_resolution_witness :
    resolveNodeOrRouteWithIndex stC6 "chain".toList (some 1) Ctx.target
      = ((expandRoute stC6 ⟨"chain".toList, "a".toList, "c".toList,
            ["a".toList, "b".toList, "c".toList]⟩).getD 1 "chain".toList, stC6)
    ∧ resolveNodeOrRouteWithIndex stC6 "chain".toList (some 3) Ctx.target
      = ((expandRoute stC6 ⟨"chain".toList, "a".toList, "c".toList,
            ["a".toList, "b".toList, "c".toList]⟩).getLastD "chain".toList,
         { stC6 with errors := stC6.errors
            ++ [ErrMsg.routeIndexOutOfRange "chain".toList 3
                 (expandRoute stC6 ⟨"chain".toList, "a".toList, "c".toList,
                   ["a".toList, "b".toList, "c".toList]⟩).length] })
    ∧ (expandRoute stC6 ⟨"chain".toList, "a".toList, "c".toList,
        ["a".toList, "b".toList, "c".toList]⟩).getD 1 "chain".toList = "b".toList
    ∧ (expandRoute stC6 ⟨"chain".toList, "a".toList, "c".toList,
        ["a".toList, "b".toList, "c".toList]⟩).getLastD "chain".toList = "c".toList := by
  refine ⟨?_, ?_, by decide, by decide⟩
  · exact (claim_C6_route_index_resolution stC6 "chain".toList
      ⟨"chain".toList, "a".toList, "c".toList,
       ["a".toList, "b".toList, "c".toList]⟩ (by decide) 1 Ctx.target).1 (by decide)
  · exact (claim_C6_route_index_resolution stC6 "chain".toList
      ⟨"chain".toList, "a".toList, "c".toList,
       ["a".toList, "b".toList, "c".toList]⟩ (by decide) 3 Ctx.target).2 (by decide)

end Micro
